import Mathlib

/-!
Verification of `pathfinder/client/src/app-controller.ts` (class `AppController`).

The TypeScript class is a DOM-bound UI controller shell.  We embed it shallowly:

* DOM elements become explicit structures (`OptionElt`, `Elt`) and the document a
  list of elements looked up by id (`getElementById`).
* The JavaScript regular expression literal from `updateAALevel`,
  `^([a-z-]+)(?:-([0-9]+))?$`, is embedded as a backtracking matcher (`aaExec`)
  with the greedy semantics of JS `RegExp.exec`: the character class `[a-z-]+`
  consumes a maximal prefix first and releases characters one at a time
  (`shrink`) until the rest of the anchored pattern matches.  A group that does
  not participate in the match is `undefined`, embedded as `none`.
* JS numbers that arise here are either `NaN` (from `parseInt` on a non-numeric
  string) or integer results of `parseInt` on digit strings, embedded as `JSNum`.
* Exceptions become `Except JSError`; dereferencing `null`/`undefined` is a
  `JSError.typeError`, and the unwrap helpers from `./utils` raise a
  "value expected" failure.
* Promises become monotone, stable partial functions of time (`Promise`);
  `.then` with a synchronous callback is `Promise.andThen` and `Promise.all` of
  a pair is `Promise.all2`.  Resolution of a promise at time `t` means its `run`
  function returns `some` at `t`; stability makes resolution single-shot.
* The abstract members of the class (`createView`, `builtinFileURI`,
  `defaultFile`) are a record of subclass operations, `SubclassOps`.
-/

/-! ## Character classes of the antialiasing option pattern -/

/-- Membership in the character class `[a-z-]` of the antialiasing option
pattern, by code point: `a` = 97, `z` = 122, `-` = 45. -/
def isClassChar (c : Char) : Bool :=
  (97 ≤ c.toNat && c.toNat ≤ 122) || c.toNat = 45

/-- Membership in the character class `[0-9]`: `0` = 48, `9` = 57. -/
def isDigitChar (c : Char) : Bool :=
  48 ≤ c.toNat && c.toNat ≤ 57

/-- Numeric value of a digit string, most significant digit first (the value
`parseInt` computes on a string of decimal digits). -/
def digitsToNat (l : List Char) : Nat :=
  l.foldl (fun a c => a * 10 + (c.toNat - 48)) 0

/-- A JavaScript number as it occurs in this program: either `NaN` or a
non-negative integer produced by `parseInt` on a digit string. -/
inductive JSNum where
  | nan : JSNum
  | int : Nat → JSNum
deriving DecidableEq

/-- JS `parseInt` on an actual string, restricted to the inputs that occur in
this program (no sign, no whitespace, no radix prefix): the maximal leading
run of decimal digits is converted, and an empty run gives `NaN`. -/
def parseIntStr (l : List Char) : JSNum :=
  let digits := l.takeWhile isDigitChar
  if digits = [] then JSNum.nan else JSNum.int (digitsToNat digits)

/-- JS `parseInt` applied to a value that is a string or `undefined` (`none`).
`parseInt(undefined)` coerces the argument to the string `"undefined"`, which
has no leading digits, hence `NaN`. -/
def parseIntJS : Option String → JSNum
  | none => JSNum.nan
  | some s => parseIntStr s.data

/-! ## The regex `^([a-z-]+)(?:-([0-9]+))?$` as a backtracking matcher -/

/-- Match the tail `(?:-([0-9]+))?$` of the pattern against the input remaining
after group 1.  Returns `some g2` on a match, where `g2` is the capture of
group 2 (`none` when the optional group did not participate), and `none` when
the tail cannot match here.  The group is tried greedily: when the remainder
starts with `-` followed by one or more digits and nothing else, the group
captures the digits; an empty remainder matches with the group skipped; any
other remainder fails `$` both with and without the group. -/
def tryTail (rest : List Char) : Option (Option (List Char)) :=
  match rest with
  | [] => some none
  | c :: ds =>
      if c = '-' ∧ ds ≠ [] ∧ ds.all isDigitChar = true then some (some ds)
      else none

/-- The backtracking loop for the greedy group `([a-z-]+)`.  `g1rev` is the
reversed current candidate for group 1 and `rest` the remaining input.  If the
tail pattern matches `rest`, the match succeeds with this group 1; otherwise
the group releases its last character back to the input, never shrinking below
one character (the `+` lower bound). -/
def shrink : List Char → List Char → Option (List Char × Option (List Char))
  | [], rest =>
      match tryTail rest with
      | some g2 => some (List.reverse [], g2)
      | none => none
  | c :: rev, rest =>
      match tryTail rest with
      | some g2 => some (List.reverse (c :: rev), g2)
      | none => if rev = [] then none else shrink rev (c :: rest)

/-- `exec` of the anchored JS regex `^([a-z-]+)(?:-([0-9]+))?$` on `s`:
`none` when the string does not match (JS returns `null`), otherwise
`some (g1, g2)` with the captures of groups 1 and 2 (`g2 = none` when the
optional group did not participate, JS `undefined`).  Group 1 greedily takes
the maximal prefix in the class `[a-z-]` and backtracks via `shrink`. -/
def aaExec (s : String) : Option (String × Option String) :=
  let l := s.data
  let g1max := l.takeWhile isClassChar
  if g1max = [] then none
  else (shrink g1max.reverse (l.dropWhile isClassChar)).map
    (fun r => (String.mk r.1, r.2.map String.mk))

/-- The input consumed by the tail pattern for a given capture of group 2:
nothing when the optional group was skipped, a dash and the digits when it
participated. -/
def g2tail : Option (List Char) → List Char
  | none => []
  | some ds => '-' :: ds

/-- The specification's description of the antialiasing option pattern
`^([a-z-]+)(?:-([0-9]+))?$`, written independently of the matcher: either the
whole string is a non-empty run of class characters (no level suffix), or it
splits as a non-empty class run, a dash, and a non-empty digit run. -/
def specAAMatch (s : String) : Prop :=
  (s.data ≠ [] ∧ s.data.all isClassChar = true) ∨
  ∃ t ds, s.data = t ++ '-' :: ds ∧ t ≠ [] ∧ t.all isClassChar = true ∧
    ds ≠ [] ∧ ds.all isDigitChar = true

/-! ## Failures and the unwrap helpers from `./utils` -/

/-- A runtime failure: a "value expected" failure raised by the unwrap helpers
from `./utils`, or a TypeError from dereferencing `null`/`undefined`. -/
inductive JSError where
  | valueExpected : String → JSError
  | typeError : JSError
deriving DecidableEq

/-- Modelled from the spec: `unwrapNull` from `./utils` (the file is not in
src/): unwraps a possibly-null value, raising a "value expected" failure on
null ("pattern match failure treated as a value expected failure kind"). -/
def unwrapNull {α : Type} (x : Option α) : Except JSError α :=
  match x with
  | some v => Except.ok v
  | none => Except.error (JSError.valueExpected "Value expected")

/-- Modelled from the spec: `expectNotNull` from `./utils` (the file is not in
src/): like `unwrapNull` but raising the "value expected" failure with the
caller-supplied message. -/
def expectNotNull {α : Type} (x : Option α) (msg : String) : Except JSError α :=
  match x with
  | some v => Except.ok v
  | none => Except.error (JSError.valueExpected msg)

/-! ## Promises -/

/-- A promise, embedded as its resolution history: `run t` is `some v` when the
promise has resolved to `v` by time `t`.  `stable` makes resolution permanent
and single-valued, so a promise resolves at most once. -/
structure Promise (α : Type) where
  run : Nat → Option α
  stable : ∀ s t a, s ≤ t → run s = some a → run t = some a

/-- A promise that resolves to `a` at time `n`. -/
def resolveAt {α : Type} (n : Nat) (a : α) : Promise α where
  run := fun t => if n ≤ t then some a else none
  stable := by
    intro s t b hst h
    by_cases hn : n ≤ s
    · simp [hn] at h
      simp [Nat.le_trans hn hst, h]
    · simp [hn] at h

/-- `.then` with a synchronous callback: the derived promise resolves, at the
same time, to the callback's result. -/
def Promise.andThen {α β : Type} (p : Promise α) (f : α → β) : Promise β where
  run := fun t => (p.run t).map f
  stable := by
    intro s t b hst h
    dsimp only at h ⊢
    cases hp : p.run s with
    | none => rw [hp] at h; simp at h
    | some a =>
        rw [hp] at h
        simp at h
        rw [p.stable s t a hst hp]
        simp [h]

/-- `Promise.all` of a pair: resolves exactly when both components have
resolved, to the pair of their values. -/
def Promise.all2 {α β : Type} (p : Promise α) (q : Promise β) : Promise (α × β) where
  run := fun t =>
    match p.run t, q.run t with
    | some a, some b => some (a, b)
    | _, _ => none
  stable := by
    intro s t ab hst h
    dsimp only at h ⊢
    cases hp : p.run s with
    | none => rw [hp] at h; simp at h
    | some a =>
        cases hq : q.run s with
        | none => rw [hp, hq] at h; simp at h
        | some b =>
            rw [hp, hq] at h
            simp at h
            rw [p.stable s t a hst hp, q.stable s t b hst hq, ← h]

/-! ## DOM model -/

/-- An `<option>` element: element id, submit value, and visible text.  In the
DOM an option without a `value` attribute takes its text content as value. -/
structure OptionElt where
  id : String := ""
  value : String := ""
  label : String := ""
deriving DecidableEq

/-- A DOM element as this controller sees one.  Only `<select>` elements use
`options` and `selectedIndex` (`-1` when no option is selected, as in the
DOM). -/
structure Elt where
  id : String
  options : List OptionElt := []
  selectedIndex : Int := -1
deriving DecidableEq

/-- `document.getElementById`: the first element of the document with the given
id, or `null`. -/
def getElementById (doc : List Elt) (elementId : String) : Option Elt :=
  doc.find? (fun e => e.id == elementId)

/-- `select.selectedOptions[0]`: for a single-select element the selected
option is `options[selectedIndex]`; the collection is empty (so index 0 is
`undefined`) when `selectedIndex` is `-1` or out of range. -/
def Elt.selectedOptionsHead (e : Elt) : Option OptionElt :=
  if e.selectedIndex < 0 then none else e.options[e.selectedIndex.toNat]?

/-- `select.insertBefore(o, options[i])`: inserts `o` at position `i`.  The DOM
keeps the previously selected option selected, so `selectedIndex` shifts up by
one when the insertion point is at or before it. -/
def insertOptionAt (e : Elt) (o : OptionElt) (i : Nat) : Elt :=
  { e with
    options := e.options.take i ++ o :: e.options.drop i,
    selectedIndex :=
      if (i : Int) ≤ e.selectedIndex then e.selectedIndex + 1 else e.selectedIndex }

/-- Index of the first option with the given element id (document order, the
order `document.getElementById` uses). -/
def findOptionIdx (opts : List OptionElt) (elementId : String) : Option Nat :=
  match opts with
  | [] => none
  | o :: rest =>
      if o.id = elementId then some 0
      else (findOptionIdx rest elementId).map (fun n => n + 1)

/-- `document.getElementById(elementId)` followed by
`select.removeChild(placeholder)`, for an id that this controller only ever
gives to options it inserted into this select element: removes the first
option with that id, if any.  Removing an option before the selected one
shifts `selectedIndex` down by one. -/
def removeOptionById (e : Elt) (elementId : String) : Elt :=
  match findOptionIdx e.options elementId with
  | none => e
  | some i =>
      { e with
        options := e.options.eraseIdx i,
        selectedIndex :=
          if (i : Int) < e.selectedIndex then e.selectedIndex - 1
          else e.selectedIndex }

/-- The element id of the temporary "Custom" placeholder option. -/
def placeholderId : String := "pf-custom-option-placeholder"

/-- Number of placeholder options present in a select element. -/
def countPlaceholders (e : Elt) : Nat :=
  e.options.countP (fun o => o.id == placeholderId)

/-- `element.addEventListener(...)` on a possibly-null element reference:
dereferencing `null` throws a TypeError. -/
def addEventListener (e : Option Elt) : Except JSError Unit :=
  match e with
  | none => Except.error JSError.typeError
  | some _ => Except.ok Unit.unit

/-! ## Controller state and subclass contract -/

/-- Raw bytes of a loaded file (an `ArrayBuffer`). -/
def FileBytes : Type := List Nat
deriving instance DecidableEq for FileBytes

/-- The abstract members a concrete subclass supplies: the view factory and the
two getters.  `createView` receives the canvas reference captured by `start`,
which is `none` when `pf-canvas` is absent (the TS cast checks nothing). -/
structure SubclassOps (Shd View : Type) where
  createView : Option Elt → String → Shd → View
  builtinFileURI : String
  defaultFile : String

/-- The mutable fields of `AppController`.  `view` and the element fields are
`none` until `start` assigns them; the declared field `canvas` is never
assigned anywhere in the class. -/
structure ControllerState (Shd View : Type) where
  view : Option (Promise View) := none
  fileData : Option FileBytes := none
  canvas : Option Elt := none
  filePickerElement : Option Elt := none
  aaLevelSelect : Option Elt := none
  settingsCard : Option Elt := none
  settingsButton : Option Elt := none
  settingsCloseButton : Option Elt := none

/-- Invocation of an abstract callback on the controller. -/
inductive CallbackEvent where
  | fileLoaded : CallbackEvent
deriving DecidableEq

/-! ## The operations of `AppController` -/

/-- `updateAALevel` (lines 65-71): reads the selected option of the
antialiasing select (reading `.value` of `selectedOptions[0]` throws a
TypeError when nothing is selected), unwraps the regex match (a "value
expected" failure when the value does not match), computes the strategy name
from group 1 and the level from group 2 — an unmatched group is `undefined`,
so the `=== ""` test fails and `parseInt(undefined)` yields `NaN` — and chains
`view.setAntialiasingOptions(aaType, aaLevel)` onto the view promise.  The
result promise carries the view together with the exact pair forwarded. -/
def updateAALevel {Shd View : Type} (st : ControllerState Shd View) :
    Except JSError (Promise (View × String × JSNum)) :=
  match st.aaLevelSelect with
  | none => Except.error JSError.typeError
  | some sel =>
      match sel.selectedOptionsHead with
      | none => Except.error JSError.typeError
      | some selectedOption =>
          match unwrapNull (aaExec selectedOption.value) with
          | Except.error e => Except.error e
          | Except.ok aaValues =>
              let aaType := aaValues.1
              let aaLevel :=
                if aaValues.2 = some "" then JSNum.int 1 else parseIntJS aaValues.2
              match st.view with
              | none => Except.error JSError.typeError
              | some view =>
                  Except.ok (view.andThen (fun v => (v, aaType, aaLevel)))

/-- `start` (lines 19-59), statement by statement.  `as`-casts perform no
runtime check, so looking up a missing element only stores `null`; the first
dereference of a null reference (an `addEventListener` call, line 26, 29 or
57) throws a TypeError.  The view promise joins the two shader resources and
then calls `createView` on the captured canvas reference.  The final
`this.updateAALevel()` runs synchronously and its result promise is returned
alongside the new state. -/
def start {Shd View : Type} (ops : SubclassOps Shd View) (common : Promise String)
    (shaders : Promise Shd) (doc : List Elt) :
    Except JSError (ControllerState Shd View × Promise (View × String × JSNum)) :=
  let canvas := getElementById doc "pf-canvas"
  let settingsCard := getElementById doc "pf-settings"
  let settingsButton := getElementById doc "pf-settings-button"
  let settingsCloseButton := getElementById doc "pf-settings-close-button"
  match settingsButton with
  | none => Except.error JSError.typeError
  | some _ =>
      match settingsCloseButton with
      | none => Except.error JSError.typeError
      | some _ =>
          let filePickerElement := getElementById doc "pf-file-select"
          let _selectFileElement := getElementById doc "pf-select-file"
          let view := (Promise.all2 common shaders).andThen
            (fun allShaders => ops.createView canvas allShaders.1 allShaders.2)
          match getElementById doc "pf-aa-level-select" with
          | none => Except.error JSError.typeError
          | some aaSel =>
              let st : ControllerState Shd View :=
                { view := some view, fileData := none, canvas := none,
                  filePickerElement := filePickerElement,
                  aaLevelSelect := some aaSel,
                  settingsCard := settingsCard,
                  settingsButton := settingsButton,
                  settingsCloseButton := settingsCloseButton }
              match updateAALevel st with
              | Except.error e => Except.error e
              | Except.ok initialAA => Except.ok (st, initialAA)

/-- `loadFile` (lines 73-82), synchronous part: `expectNotNull` tests the
`files` property (`none` embeds a null FileList) — not its emptiness — and
then takes element `[0]`, which is `undefined` for an empty list; calling
`reader.readAsArrayBuffer(undefined)` throws a TypeError.  On success the
returned file is the one the reader starts reading. -/
def loadFile (files : Option (List FileBytes)) : Except JSError FileBytes :=
  match expectNotNull files "No file selected!" with
  | Except.error e => Except.error e
  | Except.ok fl =>
      match fl[0]? with
      | none => Except.error JSError.typeError
      | some f => Except.ok f

/-- The `loadend` handler of `loadFile`: stores `reader.result` into the
file-data slot and then invokes `fileLoaded()` (which thus observes the new
bytes in the state). -/
def loadFileOnLoadEnd {Shd View : Type} (st : ControllerState Shd View)
    (result : FileBytes) : ControllerState Shd View × List CallbackEvent :=
  ({ st with fileData := some result }, [CallbackEvent.fileLoaded])

/-- The outcome of `fileSelectionChanged` on the preset select element. -/
structure FSCResult where
  select : Elt
  clickedPicker : Bool := false
  fetched : Option String := none
deriving DecidableEq

/-- `fileSelectionChanged` (lines 84-107): reads the selected option (TypeError
when none).  When its value is `load-custom` and a file picker exists: clicks
the picker, inserts a fresh "Custom" placeholder option immediately before the
selected option, restores the previous `selectedIndex`, and returns.
Otherwise: removes the placeholder option if present and fetches the selected
value as a built-in file. -/
def fileSelectionChanged (filePickerElement : Option Elt) (selectFileElement : Elt) :
    Except JSError FSCResult :=
  match selectFileElement.selectedOptionsHead with
  | none => Except.error JSError.typeError
  | some selectedOption =>
      if selectedOption.value == "load-custom" && filePickerElement.isSome then
        let oldSelectedIndex := selectFileElement.selectedIndex
        let newOption : OptionElt :=
          { id := placeholderId, value := "Custom", label := "Custom" }
        let sel1 := insertOptionAt selectFileElement newOption
          selectFileElement.selectedIndex.toNat
        let sel2 := { sel1 with selectedIndex := oldSelectedIndex }
        Except.ok { select := sel2, clickedPicker := true, fetched := none }
      else
        let sel1 := removeOptionById selectFileElement placeholderId
        Except.ok { select := sel1, clickedPicker := false,
                    fetched := some selectedOption.value }

/-- The value of the custom branch of `fileSelectionChanged`, named for use in
statements: the placeholder is inserted before the selected option and the
previous selected index is restored. -/
def customSelectionResult (sel : Elt) : FSCResult :=
  let sel1 := insertOptionAt sel
    { id := placeholderId, value := "Custom", label := "Custom" }
    sel.selectedIndex.toNat
  { select := { sel1 with selectedIndex := sel.selectedIndex },
    clickedPicker := true, fetched := none }

/-- The network side of `fetchFile` (lines 109-116): the list of HTTP requests
the call issues — exactly one, to the template URL. -/
structure FetchRequests where
  requests : List String
deriving DecidableEq

/-- `fetchFile` (line 110): one `window.fetch` of the template string built
from the subclass base URI and the file name. -/
def fetchFile {Shd View : Type} (ops : SubclassOps Shd View) (file : String) :
    FetchRequests :=
  { requests := [ops.builtinFileURI ++ "/" ++ file] }

/-- The success continuation of `fetchFile` (lines 112-115): stores the
response bytes into the file-data slot and then invokes `fileLoaded()`. -/
def fetchFileOnResponse {Shd View : Type} (st : ControllerState Shd View)
    (data : FileBytes) : ControllerState Shd View × List CallbackEvent :=
  ({ st with fileData := some data }, [CallbackEvent.fileLoaded])

/-- `loadInitialFile` (lines 61-63): fetches the subclass default file. -/
def loadInitialFile {Shd View : Type} (ops : SubclassOps Shd View) : FetchRequests :=
  fetchFile ops ops.defaultFile

/-! ## Concrete fixtures used to evaluate the operations on closed inputs -/

/-- A concrete subclass: shader data is `Unit`, views are numbered. -/
def opsW : SubclassOps Unit Nat :=
  { createView := fun _ _ _ => 0, builtinFileURI := "/otf/demo", defaultFile := "eb-garamond" }

/-- A common-shader resource resolving at time 1. -/
def commonW : Promise String := resolveAt 1 "common-source"

/-- A per-program shader resource resolving at time 2. -/
def shadersW : Promise Unit := resolveAt 2 Unit.unit

/-- The required canvas element. -/
def canvasW : Elt := { id := "pf-canvas" }

/-- The settings panel element. -/
def settingsW : Elt := { id := "pf-settings" }

/-- The settings button element. -/
def btnW : Elt := { id := "pf-settings-button" }

/-- The settings close button element. -/
def closeW : Elt := { id := "pf-settings-close-button" }

/-- The optional file picker element. -/
def pickerW : Elt := { id := "pf-file-select" }

/-- An antialiasing select whose chosen option is `ecaa-4`. -/
def aaSelEcaa : Elt :=
  { id := "pf-aa-level-select",
    options := [{ value := "ecaa-4", label := "ECAA 4x" }], selectedIndex := 0 }

/-- An antialiasing select whose chosen option is `none` (no level suffix). -/
def aaSelNone : Elt :=
  { id := "pf-aa-level-select",
    options := [{ value := "none", label := "None" }], selectedIndex := 0 }

/-- An antialiasing select whose chosen option is the malformed value `4`. -/
def aaSelBad : Elt :=
  { id := "pf-aa-level-select",
    options := [{ value := "4", label := "Bad" }], selectedIndex := 0 }

/-- The preset select element, with `load-custom` currently chosen. -/
def selectFileW : Elt :=
  { id := "pf-select-file",
    options := [{ value := "eb-garamond" }, { value := "load-custom", label := "Custom file" }],
    selectedIndex := 1 }

/-- A document holding every element the controller looks up. -/
def docFull : List Elt :=
  [canvasW, settingsW, btnW, closeW, pickerW, selectFileW, aaSelEcaa]

/-- A document missing the settings button. -/
def docNoButton : List Elt :=
  [canvasW, settingsW, closeW, pickerW, selectFileW, aaSelEcaa]

/-- A document missing the canvas and the settings panel (and both optional
elements), but holding the two buttons and the antialiasing select. -/
def docNoCanvasNoSettings : List Elt := [btnW, closeW, aaSelEcaa]

/-- A controller state after binding `aaSelEcaa`, whose view resolves to view
number 5 at time 2. -/
def stEcaa : ControllerState Unit Nat :=
  { view := some (resolveAt 2 5), aaLevelSelect := some aaSelEcaa }

/-- A controller state after binding `aaSelNone`, whose view resolves to view
number 7 at time 0. -/
def stNone : ControllerState Unit Nat :=
  { view := some (resolveAt 0 7), aaLevelSelect := some aaSelNone }

/-- A controller state after binding `aaSelBad`. -/
def stBad : ControllerState Unit Nat :=
  { view := some (resolveAt 0 7), aaLevelSelect := some aaSelBad }

/-- A fresh controller state (no field assigned yet). -/
def stFresh : ControllerState Unit Nat := {}

/-- First custom-selection event on `selectFileW` (the `load-custom` option is
chosen and a file picker exists). -/
def fscStep1 : Except JSError FSCResult :=
  fileSelectionChanged (some pickerW) selectFileW

/-- Second consecutive custom-selection event: the user chooses `load-custom`
again (it now sits one position later because of the inserted placeholder) and
the handler fires once more. -/
def fscStep2 : Except JSError FSCResult :=
  match fscStep1 with
  | Except.error e => Except.error e
  | Except.ok r =>
      fileSelectionChanged (some pickerW) { r.select with selectedIndex := 2 }

/-! ## Helper lemmas about the character classes -/

theorem digitChar_not_classChar {c : Char} (h : isDigitChar c = true) :
    isClassChar c = false := by
  simp [isDigitChar] at h
  simp [isClassChar]
  omega

theorem digitChar_ne_dash {c : Char} (h : isDigitChar c = true) : c ≠ '-' := by
  intro he
  subst he
  exact absurd h (by decide)

/-! ## Helper lemmas about `takeWhile` and `dropWhile` -/

theorem takeWhile_append_of_all {p : Char → Bool} :
    ∀ {t : List Char} (u : List Char), t.all p = true →
      (t ++ u).takeWhile p = t ++ u.takeWhile p := by
  intro t
  induction t with
  | nil => intro u _; simp
  | cons a t ih =>
      intro u h
      rw [List.all_cons, Bool.and_eq_true] at h
      simp [List.takeWhile_cons, h.1, ih u h.2]

theorem dropWhile_append_of_all {p : Char → Bool} :
    ∀ {t : List Char} (u : List Char), t.all p = true →
      (t ++ u).dropWhile p = u.dropWhile p := by
  intro t
  induction t with
  | nil => intro u _; simp
  | cons a t ih =>
      intro u h
      rw [List.all_cons, Bool.and_eq_true] at h
      simp [List.dropWhile_cons, h.1, ih u h.2]

theorem takeWhile_eq_self_of_all {p : Char → Bool} {l : List Char}
    (h : l.all p = true) : l.takeWhile p = l := by
  have := takeWhile_append_of_all (t := l) [] h
  simpa using this

theorem dropWhile_eq_nil_of_all {p : Char → Bool} {l : List Char}
    (h : l.all p = true) : l.dropWhile p = [] := by
  have := dropWhile_append_of_all (t := l) [] h
  simpa using this

/-! ## Soundness and completeness of the backtracking matcher -/

theorem tryTail_eq_some {rest : List Char} {g2 : Option (List Char)}
    (h : tryTail rest = some g2) :
    (rest = [] ∧ g2 = none) ∨
    ∃ ds, rest = '-' :: ds ∧ g2 = some ds ∧ ds ≠ [] ∧ ds.all isDigitChar = true := by
  cases rest with
  | nil =>
      left
      simp [tryTail] at h
      exact ⟨rfl, h.symm⟩
  | cons c ds =>
      right
      simp only [tryTail] at h
      split at h
      · rename_i hcond
        simp only [Option.some.injEq] at h
        exact ⟨ds, by rw [hcond.1], h.symm, hcond.2.1, hcond.2.2⟩
      · simp at h

theorem tryTail_cons_ne_dash {d : Char} {ds : List Char} (h : d ≠ '-') :
    tryTail (d :: ds) = none := by
  simp [tryTail, h]

theorem tryTail_dash_digits {ds : List Char} (hne : ds ≠ [])
    (hall : ds.all isDigitChar = true) : tryTail ('-' :: ds) = some (some ds) := by
  simp [tryTail, hall, hne]

theorem shrink_of_tryTail_some {g1rev rest : List Char} {g2 : Option (List Char)}
    (h : tryTail rest = some g2) : shrink g1rev rest = some (g1rev.reverse, g2) := by
  cases g1rev <;> simp [shrink, h]

theorem shrink_sound :
    ∀ (g1rev : List Char) {rest g1 : List Char} {g2 : Option (List Char)},
      shrink g1rev rest = some (g1, g2) →
      g1 ++ g2tail g2 = g1rev.reverse ++ rest ∧ (g1rev ≠ [] → g1 ≠ []) ∧
      ((∀ x ∈ g1rev, isClassChar x = true) → ∀ x ∈ g1, isClassChar x = true) ∧
      ∀ ds, g2 = some ds → ds ≠ [] ∧ ds.all isDigitChar = true := by
  intro g1rev
  induction g1rev with
  | nil =>
      intro rest g1 g2 h
      simp only [shrink] at h
      cases htt : tryTail rest with
      | none => rw [htt] at h; simp at h
      | some g2e =>
          rw [htt] at h
          simp only [List.reverse_nil, Option.some.injEq, Prod.mk.injEq] at h
          obtain ⟨hg1, hg2⟩ := h
          subst hg2
          subst hg1
          rcases tryTail_eq_some htt with ⟨hrest, hg2n⟩ | ⟨ds, hrest, hg2s, hdne, hdall⟩
          · subst hrest; subst hg2n
            exact ⟨by simp [g2tail], fun hc => absurd rfl hc, fun _ => by simp,
              fun ds h2 => by simp at h2⟩
          · subst hrest; subst hg2s
            exact ⟨by simp [g2tail], fun hc => absurd rfl hc, fun _ => by simp,
              fun ds2 h2 => by
                rw [Option.some.injEq] at h2
                subst h2
                exact ⟨hdne, hdall⟩⟩
  | cons c rev ih =>
      intro rest g1 g2 h
      simp only [shrink] at h
      cases htt : tryTail rest with
      | some g2e =>
          rw [htt] at h
          simp only [List.reverse_cons, Option.some.injEq, Prod.mk.injEq] at h
          obtain ⟨hg1, hg2⟩ := h
          subst hg2
          subst hg1
          refine ⟨?_, fun _ => by simp,
            fun hmem x hx => by
              apply hmem
              simp only [List.mem_append, List.mem_reverse, List.mem_singleton] at hx
              rcases hx with hx | hx
              · exact List.mem_cons_of_mem c hx
              · rw [hx]; exact List.mem_cons_self c rev, ?_⟩
          · rcases tryTail_eq_some htt with ⟨hrest, hg2n⟩ | ⟨ds, hrest, hg2s, hdne, hdall⟩
            · subst hrest; subst hg2n; simp [g2tail]
            · subst hrest; subst hg2s; simp [g2tail]
          · intro ds h2
            rcases tryTail_eq_some htt with ⟨hrest, hg2n⟩ | ⟨ds2, hrest, hg2s, hdne, hdall⟩
            · subst hg2n; simp at h2
            · subst hg2s
              rw [Option.some.injEq] at h2
              subst h2
              exact ⟨hdne, hdall⟩
      | none =>
          rw [htt] at h
          simp only [] at h
          split at h
          · simp at h
          · rename_i hrevne
            obtain ⟨happ, _, hcls, hdig⟩ := ih h
            refine ⟨?_, fun _ => (ih h).2.1 hrevne, fun hmem => hcls ?_, hdig⟩
            · rw [happ]
              simp
            · intro x hx
              exact hmem x (List.mem_cons_of_mem c hx)

/-- Soundness of the matcher: a successful `exec` implies the string fits the
pattern as the specification describes it. -/
theorem specAAMatch_of_aaExec_isSome {s : String} (h : (aaExec s).isSome = true) :
    specAAMatch s := by
  unfold aaExec at h
  by_cases hg : s.data.takeWhile isClassChar = []
  · simp [hg] at h
  · simp only [hg, if_neg, ite_false] at h
    cases hs : shrink (s.data.takeWhile isClassChar).reverse
        (s.data.dropWhile isClassChar) with
    | none => rw [hs] at h; simp at h
    | some r =>
        obtain ⟨g1, g2⟩ := r
        obtain ⟨happ, hne, hcls, hdig⟩ := shrink_sound _ hs
        rw [List.reverse_reverse, List.takeWhile_append_dropWhile] at happ
        have hrevne : (s.data.takeWhile isClassChar).reverse ≠ [] := by
          simpa [List.reverse_eq_nil_iff] using hg
        have hg1ne : g1 ≠ [] := hne hrevne
        have hg1cls : ∀ x ∈ g1, isClassChar x = true := by
          apply hcls
          intro x hx
          rw [List.mem_reverse] at hx
          have := s.data.all_takeWhile (p := isClassChar)
          rw [List.all_eq_true] at this
          exact this x hx
        cases g2 with
        | none =>
            left
            constructor
            · rw [← happ]; simp [g2tail, hg1ne]
            · rw [← happ]
              simp only [g2tail, List.append_nil]
              rw [List.all_eq_true]
              exact hg1cls
        | some ds =>
            right
            refine ⟨g1, ds, ?_, hg1ne, ?_, (hdig ds rfl).1, (hdig ds rfl).2⟩
            · rw [← happ]; simp [g2tail]
            · rw [List.all_eq_true]
              exact hg1cls

/-- Complete computation of the matcher on a string that splits as a class run,
a dash and a digit run: the greedy group 1 first swallows the dash, fails the
tail, backtracks one character, and the optional group captures the digits. -/
theorem aaExec_of_decomposition {s : String} {t ds : List Char}
    (hdata : s.data = t ++ '-' :: ds) (ht : t ≠ []) (htc : t.all isClassChar = true)
    (hds : ds ≠ []) (hdsd : ds.all isDigitChar = true) :
    aaExec s = some (String.mk t, some (String.mk ds)) := by
  obtain ⟨d, ds2, rfl⟩ : ∃ d ds2, ds = d :: ds2 := by
    cases ds with
    | nil => exact absurd rfl hds
    | cons d ds2 => exact ⟨d, ds2, rfl⟩
  have hd : isDigitChar d = true := by
    rw [List.all_cons, Bool.and_eq_true] at hdsd
    exact hdsd.1
  have hdc : isClassChar d = false := digitChar_not_classChar hd
  have hdash : isClassChar '-' = true := by decide
  have htake : s.data.takeWhile isClassChar = t ++ ['-'] := by
    rw [hdata, takeWhile_append_of_all _ htc]
    simp [List.takeWhile_cons, hdash, hdc]
  have hdrop : s.data.dropWhile isClassChar = d :: ds2 := by
    rw [hdata, dropWhile_append_of_all _ htc]
    simp [List.dropWhile_cons, hdash, hdc]
  have hne : t ++ ['-'] ≠ [] := by simp
  simp only [aaExec]
  rw [htake, hdrop, if_neg hne]
  rw [show (t ++ ['-']).reverse = '-' :: t.reverse by simp]
  have htt1 : tryTail (d :: ds2) = none := tryTail_cons_ne_dash (digitChar_ne_dash hd)
  have htrev : t.reverse ≠ [] := by simpa [List.reverse_eq_nil_iff] using ht
  rw [shrink, htt1]
  simp only []
  rw [if_neg htrev]
  have htt2 : tryTail ('-' :: d :: ds2) = some (some (d :: ds2)) :=
    tryTail_dash_digits (by simp) hdsd
  rw [shrink_of_tryTail_some htt2]
  simp

/-- Completeness of the matcher: a string fitting the pattern as the
specification describes it is accepted by `exec`. -/
theorem aaExec_isSome_of_match {s : String} (h : specAAMatch s) :
    (aaExec s).isSome = true := by
  cases h with
  | inl hl =>
      obtain ⟨hne, hall⟩ := hl
      simp only [aaExec]
      rw [takeWhile_eq_self_of_all hall, dropWhile_eq_nil_of_all hall, if_neg hne]
      rw [shrink_of_tryTail_some (show tryTail [] = some none from rfl)]
      simp
  | inr hr =>
      obtain ⟨t, ds, hdata, ht, htc, hds, hdsd⟩ := hr
      rw [aaExec_of_decomposition hdata ht htc hds hdsd]
      rfl

/-! ## Helper lemmas about `parseInt` and strings -/

theorem parseIntJS_digits {ds : List Char} (hne : ds ≠ [])
    (hall : ds.all isDigitChar = true) :
    parseIntJS (some (String.mk ds)) = JSNum.int (digitsToNat ds) := by
  simp only [parseIntJS, parseIntStr]
  rw [takeWhile_eq_self_of_all hall, if_neg hne]

theorem mkString_ne_empty {ds : List Char} (h : ds ≠ []) : String.mk ds ≠ "" := by
  intro he
  exact h (congrArg String.data he)

/-! ## Helper lemmas about option counting in a select element -/

theorem countPlaceholders_insertOptionAt (e : Elt) (o : OptionElt) (i : Nat)
    (ho : o.id = placeholderId) :
    countPlaceholders (insertOptionAt e o i) = countPlaceholders e + 1 := by
  unfold countPlaceholders insertOptionAt
  simp only []
  have h1 : e.options.countP (fun x => x.id == placeholderId)
      = (e.options.take i).countP (fun x => x.id == placeholderId)
        + (e.options.drop i).countP (fun x => x.id == placeholderId) := by
    rw [← List.countP_append, List.take_append_drop]
  rw [List.countP_append, List.countP_cons, h1]
  simp [ho]
  omega

theorem findOptionIdx_none_countP {opts : List OptionElt} {pid : String}
    (h : findOptionIdx opts pid = none) :
    opts.countP (fun o => o.id == pid) = 0 := by
  induction opts with
  | nil => simp
  | cons o rest ih =>
      simp only [findOptionIdx] at h
      split at h
      · simp at h
      · rename_i hne
        rw [Option.map_eq_none'] at h
        rw [List.countP_cons]
        simp [hne, ih h]

theorem findOptionIdx_some_countP {opts : List OptionElt} {pid : String} :
    ∀ {i : Nat}, findOptionIdx opts pid = some i →
      (opts.eraseIdx i).countP (fun o => o.id == pid)
        = opts.countP (fun o => o.id == pid) - 1 := by
  induction opts with
  | nil => intro i h; simp [findOptionIdx] at h
  | cons o rest ih =>
      intro i h
      simp only [findOptionIdx] at h
      split at h
      · rename_i heq
        rw [Option.some.injEq] at h
        subst h
        rw [show (o :: rest).eraseIdx 0 = rest from rfl, List.countP_cons]
        simp [heq]
      · rename_i hne
        cases hfr : findOptionIdx rest pid with
        | none => rw [hfr] at h; simp at h
        | some j =>
            rw [hfr] at h
            simp at h
            subst h
            rw [show (o :: rest).eraseIdx (j + 1) = o :: rest.eraseIdx j from rfl]
            rw [List.countP_cons, List.countP_cons]
            simp [hne]
            exact ih hfr

theorem countPlaceholders_removeOptionById (e : Elt) :
    countPlaceholders (removeOptionById e placeholderId) = countPlaceholders e - 1 := by
  unfold countPlaceholders removeOptionById
  cases hf : findOptionIdx e.options placeholderId with
  | none => simp [findOptionIdx_none_countP hf]
  | some i => simp [findOptionIdx_some_countP hf]

/-! ## Helper lemmas about promises -/

theorem Promise.run_unique {α : Type} (p : Promise α) {t1 t2 : Nat} {v1 v2 : α}
    (h1 : p.run t1 = some v1) (h2 : p.run t2 = some v2) : v1 = v2 := by
  rcases Nat.le_total t1 t2 with h | h
  · have hs := p.stable t1 t2 v1 h h1
    rw [hs, Option.some.injEq] at h2
    exact h2
  · have hs := p.stable t2 t1 v2 h h2
    rw [hs, Option.some.injEq] at h1
    exact h1.symm

theorem Promise.andThen_run {α β : Type} (p : Promise α) (f : α → β) (t : Nat) :
    (p.andThen f).run t = (p.run t).map f := rfl

theorem Promise.all2_run_some {α β : Type} {p : Promise α} {q : Promise β} {t : Nat}
    {ab : α × β} (h : (Promise.all2 p q).run t = some ab) :
    p.run t = some ab.1 ∧ q.run t = some ab.2 := by
  have h2 : (match p.run t, q.run t with
      | some a, some b => some (a, b)
      | _, _ => none) = some ab := h
  cases hp : p.run t with
  | none => rw [hp] at h2; simp at h2
  | some a =>
      cases hq : q.run t with
      | none => rw [hp, hq] at h2; simp at h2
      | some b =>
          rw [hp, hq] at h2
          rw [Option.some.injEq] at h2
          rw [← h2]
          exact ⟨rfl, rfl⟩

/-! ## Inversion of a successful `start` -/

theorem start_ok_inv {Shd View : Type} {ops : SubclassOps Shd View}
    {common : Promise String} {shaders : Promise Shd} {doc : List Elt}
    {st : ControllerState Shd View} {p : Promise (View × String × JSNum)}
    (h : start ops common shaders doc = Except.ok (st, p)) :
    st.view = some ((Promise.all2 common shaders).andThen
      (fun allShaders => ops.createView (getElementById doc "pf-canvas")
        allShaders.1 allShaders.2)) ∧
    st.canvas = none ∧ st.fileData = none ∧
    st.aaLevelSelect = getElementById doc "pf-aa-level-select" ∧
    updateAALevel st = Except.ok p := by
  simp only [start] at h
  split at h
  · simp at h
  · split at h
    · simp at h
    · split at h
      · simp at h
      · rename_i aaSel haa
        split at h
        · simp at h
        · rename_i initialAA hup
          rw [Except.ok.injEq, Prod.mk.injEq] at h
          obtain ⟨hst, hp⟩ := h
          subst hp
          subst hst
          exact ⟨rfl, rfl, rfl, by rw [haa], hup⟩

/-- Certainty that `updateAALevel` succeeds whenever the bound select has a
selected option matching the pattern and the view promise is set. -/
theorem updateAALevel_ok_of_match {Shd View : Type} (st : ControllerState Shd View)
    (sel : Elt) (opt : OptionElt) (pv : Promise View)
    (hsel : st.aaLevelSelect = some sel) (hopt : sel.selectedOptionsHead = some opt)
    (hview : st.view = some pv) (hm : specAAMatch opt.value) :
    ∃ q, updateAALevel st = Except.ok q := by
  obtain ⟨g1, g2, hexec⟩ : ∃ g1 g2, aaExec opt.value = some (g1, g2) := by
    have hs := aaExec_isSome_of_match hm
    cases hx : aaExec opt.value with
    | none => rw [hx] at hs; simp at hs
    | some r => exact ⟨r.1, r.2, rfl⟩
  refine ⟨pv.andThen
    (fun v => (v, g1, if g2 = some "" then JSNum.int 1 else parseIntJS g2)), ?_⟩
  simp only [updateAALevel, hsel, hopt, hexec, unwrapNull, hview]

/-! ## The claims -/

/-- C1: for every antialiasing option string matching the pattern with the
numeric suffix present — it splits as a class run `t`, a dash and a digit run
`ds` — `updateAALevel` parses it into the pair (strategy name `t`, level =
integer value of `ds`) and forwards exactly that pair to the view's
`setAntialiasingOptions`, by chaining the call onto the view promise. -/
theorem C1_updateAALevel_parses_suffixed {Shd View : Type}
    (st : ControllerState Shd View) (sel : Elt) (opt : OptionElt)
    (pv : Promise View) (t ds : List Char)
    (hsel : st.aaLevelSelect = some sel)
    (hopt : sel.selectedOptionsHead = some opt)
    (hval : opt.value.data = t ++ '-' :: ds)
    (ht : t ≠ []) (htc : t.all isClassChar = true)
    (hds : ds ≠ []) (hdsd : ds.all isDigitChar = true)
    (hview : st.view = some pv) :
    updateAALevel st
      = Except.ok (pv.andThen
          (fun v => (v, String.mk t, JSNum.int (digitsToNat ds)))) := by
  have hexec : aaExec opt.value = some (String.mk t, some (String.mk ds)) :=
    aaExec_of_decomposition hval ht htc hds hdsd
  have hne2 : ¬ (some (String.mk ds) = some "") := by
    intro hc
    exact mkString_ne_empty hds (Option.some.inj hc)
  simp only [updateAALevel, hsel, hopt, hexec, unwrapNull, hview]
  rw [if_neg hne2, parseIntJS_digits hds hdsd]

/-- Witness for C1: the concrete option value `ecaa-4` is parsed to
`("ecaa", 4)` and that pair is chained onto the view promise. -/
theorem C1_witness :
    updateAALevel stEcaa
      = Except.ok ((resolveAt 2 5).andThen
          (fun v => (v, String.mk ['e', 'c', 'a', 'a'],
            JSNum.int (digitsToNat ['4'])))) :=
  C1_updateAALevel_parses_suffixed stEcaa aaSelEcaa
    { value := "ecaa-4", label := "ECAA 4x" } (resolveAt 2 5)
    ['e', 'c', 'a', 'a'] ['4'] rfl rfl (by decide) (by decide) (by decide)
    (by decide) (by decide) rfl

/-- C2 (the code contradicts it): on the suffixless option value `none` the
regex matches with group 2 not participating, JS leaves `aaValues[2]`
undefined, the dead `=== ""` test fails, and `parseInt(undefined)` makes the
forwarded level `NaN` — not the level 1 the `=== ""` branch and the spec
intend. -/
theorem C2_none_parses_to_nan :
    updateAALevel stNone
      = Except.ok ((resolveAt 0 7).andThen (fun v => (v, "none", JSNum.nan))) ∧
    JSNum.nan ≠ JSNum.int 1 :=
  ⟨rfl, by decide⟩

/-- C3: on any selected option value not matching the pattern, the regex exec
returns null, `unwrapNull` raises the "value expected" failure and
`updateAALevel` aborts, so no antialiasing setting is forwarded to the view
(the error return precedes the `view.then` chaining). -/
theorem C3_malformed_fails {Shd View : Type} (st : ControllerState Shd View)
    (sel : Elt) (opt : OptionElt)
    (hsel : st.aaLevelSelect = some sel)
    (hopt : sel.selectedOptionsHead = some opt)
    (hno : ¬ specAAMatch opt.value) :
    updateAALevel st = Except.error (JSError.valueExpected "Value expected") := by
  have hexec : aaExec opt.value = none := by
    cases hx : aaExec opt.value with
    | none => rfl
    | some r => exact absurd (specAAMatch_of_aaExec_isSome (by rw [hx]; rfl)) hno
  simp [updateAALevel, hsel, hopt, hexec, unwrapNull]

/-- Witness for C3 at the malformed option value `4`. -/
theorem C3_witness :
    updateAALevel stBad = Except.error (JSError.valueExpected "Value expected") := by
  apply C3_malformed_fails stBad aaSelBad { value := "4", label := "Bad" } rfl rfl
  intro hm
  have h1 := aaExec_isSome_of_match hm
  rw [show aaExec ({ value := "4", label := "Bad" } : OptionElt).value = none
    from rfl] at h1
  simp at h1

/-- C4 (the code contradicts it): a change event with zero files selected
carries an empty — not null — file list, so `expectNotNull` does not raise the
"No file selected!" failure; indexing the empty list yields `undefined` and
`readAsArrayBuffer(undefined)` throws a TypeError instead.  Only a null list
produces the intended message.  With exactly one file, its bytes reach the
file-data slot before `fileLoaded()` runs, as claimed. -/
theorem C4_loadFile_zero_files :
    loadFile (some ([] : List FileBytes)) = Except.error JSError.typeError ∧
    JSError.typeError ≠ JSError.valueExpected "No file selected!" ∧
    loadFile none = Except.error (JSError.valueExpected "No file selected!") ∧
    loadFile (some [([7, 8] : FileBytes)]) = Except.ok ([7, 8] : FileBytes) ∧
    (loadFileOnLoadEnd stFresh ([7, 8] : FileBytes)).1.fileData
      = some ([7, 8] : FileBytes) ∧
    (loadFileOnLoadEnd stFresh ([7, 8] : FileBytes)).2 = [CallbackEvent.fileLoaded] :=
  ⟨rfl, by decide, rfl, rfl, rfl, rfl⟩

/-- C5: `fetchFile` issues exactly one GET request, to
`${builtinFileURI}/${file}`, and its success continuation stores the response
bytes in the file-data slot and then invokes `fileLoaded()`, which therefore
observes the fetched bytes there. -/
theorem C5_fetchFile_request_and_store {Shd View : Type} (ops : SubclassOps Shd View)
    (file : String) (st : ControllerState Shd View) (data : FileBytes) :
    (fetchFile ops file).requests = [ops.builtinFileURI ++ "/" ++ file] ∧
    (fetchFileOnResponse st data).1 = { st with fileData := some data } ∧
    (fetchFileOnResponse st data).2 = [CallbackEvent.fileLoaded] :=
  ⟨rfl, rfl, rfl⟩

/-- Witness for C5 at concrete values. -/
theorem C5_witness :
    (fetchFile opsW "foo.bin").requests = [opsW.builtinFileURI ++ "/" ++ "foo.bin"] ∧
    (fetchFileOnResponse stFresh ([1] : FileBytes)).1
      = { stFresh with fileData := some ([1] : FileBytes) } ∧
    (fetchFileOnResponse stFresh ([1] : FileBytes)).2 = [CallbackEvent.fileLoaded] :=
  C5_fetchFile_request_and_store opsW "foo.bin" stFresh ([1] : FileBytes)

/-- C6: after `start`, the view promise resolves only when both shader
resources have resolved, any resolution value is exactly the object
`createView(canvas, commonSource, shaderSources)` returns, and (by promise
stability) all resolution values agree — it resolves exactly once. -/
theorem C6_view_after_shaders {Shd View : Type} (ops : SubclassOps Shd View)
    (common : Promise String) (shaders : Promise Shd) (doc : List Elt)
    (st : ControllerState Shd View) (p : Promise (View × String × JSNum))
    (h : start ops common shaders doc = Except.ok (st, p)) :
    ∃ pv, st.view = some pv ∧
      (∀ t v, pv.run t = some v →
        ∃ c sh, common.run t = some c ∧ shaders.run t = some sh ∧
          v = ops.createView (getElementById doc "pf-canvas") c sh) ∧
      ∀ t1 t2 v1 v2, pv.run t1 = some v1 → pv.run t2 = some v2 → v1 = v2 := by
  obtain ⟨hview, -, -, -, -⟩ := start_ok_inv h
  refine ⟨_, hview, ?_, ?_⟩
  · intro t v hv
    rw [Promise.andThen_run] at hv
    cases hall : (Promise.all2 common shaders).run t with
    | none => rw [hall] at hv; simp at hv
    | some ab =>
        rw [hall] at hv
        simp at hv
        obtain ⟨hc, hsh⟩ := Promise.all2_run_some hall
        exact ⟨ab.1, ab.2, hc, hsh, hv.symm⟩
  · intro t1 t2 v1 v2 h1 h2
    exact Promise.run_unique _ h1 h2

/-- Witness for C6 on the full document and the concrete shader promises. -/
theorem C6_witness :
    ∃ (st : ControllerState Unit Nat) (p : Promise (Nat × String × JSNum)),
      start opsW commonW shadersW docFull = Except.ok (st, p) ∧
      ∃ pv, st.view = some pv ∧
        (∀ t v, pv.run t = some v →
          ∃ c sh, commonW.run t = some c ∧ shadersW.run t = some sh ∧
            v = opsW.createView (getElementById docFull "pf-canvas") c sh) ∧
        ∀ t1 t2 v1 v2, pv.run t1 = some v1 → pv.run t2 = some v2 → v1 = v2 := by
  refine ⟨_, _, rfl, ?_⟩
  exact C6_view_after_shaders opsW commonW shadersW docFull _ _ rfl

/-- C7 (amended): a custom-selection event with a file picker present inserts
exactly one placeholder immediately before the selected option and restores
the previous selected index; any non-custom selection change removes the
first placeholder (entirely, when at most one was present).  The removal
happens only on non-custom events — the custom branch returns before it — so
a second consecutive custom-selection event inserts a second placeholder
rather than being deduplicated. -/
theorem C7_placeholder_behavior (picker : Option Elt) (sel : Elt) (opt : OptionElt)
    (hopt : sel.selectedOptionsHead = some opt) :
    (opt.value = "load-custom" → picker.isSome = true →
      ∃ r, fileSelectionChanged picker sel = Except.ok r ∧
        r.select.options = sel.options.take sel.selectedIndex.toNat
          ++ { id := placeholderId, value := "Custom", label := "Custom" }
            :: sel.options.drop sel.selectedIndex.toNat ∧
        r.select.selectedIndex = sel.selectedIndex ∧
        countPlaceholders r.select = countPlaceholders sel + 1 ∧
        r.clickedPicker = true ∧ r.fetched = none) ∧
    (opt.value ≠ "load-custom" →
      ∃ r, fileSelectionChanged picker sel = Except.ok r ∧
        countPlaceholders r.select = countPlaceholders sel - 1 ∧
        (countPlaceholders sel ≤ 1 → countPlaceholders r.select = 0) ∧
        r.clickedPicker = false ∧ r.fetched = some opt.value) := by
  constructor
  · intro hlc hpick
    have hcond : (opt.value == "load-custom" && picker.isSome) = true := by
      rw [hlc, hpick]
      simp
    refine ⟨customSelectionResult sel, ?_, ?_, ?_, ?_, rfl, rfl⟩
    · simp [fileSelectionChanged, hopt, hcond, customSelectionResult]
    · simp [customSelectionResult, insertOptionAt]
    · simp [customSelectionResult]
    · have hc := countPlaceholders_insertOptionAt sel
        { id := placeholderId, value := "Custom", label := "Custom" }
        sel.selectedIndex.toNat rfl
      simpa [customSelectionResult, countPlaceholders, insertOptionAt] using hc
  · intro hne
    have hcond : (opt.value == "load-custom" && picker.isSome) = false := by
      rw [beq_eq_false_iff_ne.mpr hne]
      simp
    refine ⟨{ select := removeOptionById sel placeholderId,
              clickedPicker := false,
              fetched := some opt.value }, ?_, ?_, ?_, rfl, rfl⟩
    · simp [fileSelectionChanged, hopt, hcond]
    · exact countPlaceholders_removeOptionById sel
    · intro hle
      have hc := countPlaceholders_removeOptionById sel
      dsimp only
      omega

/-- Witness for C7 (amended) on the concrete preset select. -/
theorem C7_witness :
    ∃ r, fileSelectionChanged (some pickerW) selectFileW = Except.ok r ∧
      countPlaceholders r.select = countPlaceholders selectFileW + 1 ∧
      r.select.selectedIndex = selectFileW.selectedIndex := by
  obtain ⟨r, hr, -, hidx, hcount, -, -⟩ :=
    (C7_placeholder_behavior (some pickerW) selectFileW
      { value := "load-custom", label := "Custom file" } (by decide)).1
      (by decide) (by decide)
  exact ⟨r, hr, hcount, hidx⟩

/-- Counterexample to C7 as frozen: after one custom-selection event the
select holds one placeholder, and a second consecutive custom-selection event
leaves two placeholder options — a duplicate. -/
theorem C7_counterexample :
    fscStep1.map (fun r => countPlaceholders r.select) = Except.ok 1 ∧
    fscStep2.map (fun r => countPlaceholders r.select) = Except.ok 2 :=
  ⟨rfl, rfl⟩

/-- C8 (amended): `start` throws a TypeError during setup when the settings
button, the settings close button, or the antialiasing selector is absent —
those null references are dereferenced by `addEventListener`.  When these
three are present and the selector's chosen value matches the pattern,
`start` completes no matter which other elements exist: the `as` casts
perform no runtime check, so a missing canvas or settings panel does not make
`start` throw, and the optional file picker and preset selector are guarded
by explicit null tests. -/
theorem C8_required_elements {Shd View : Type} (ops : SubclassOps Shd View)
    (common : Promise String) (shaders : Promise Shd) (doc : List Elt) :
    (getElementById doc "pf-settings-button" = none →
      start ops common shaders doc = Except.error JSError.typeError) ∧
    (∀ b, getElementById doc "pf-settings-button" = some b →
      getElementById doc "pf-settings-close-button" = none →
      start ops common shaders doc = Except.error JSError.typeError) ∧
    (∀ b c, getElementById doc "pf-settings-button" = some b →
      getElementById doc "pf-settings-close-button" = some c →
      getElementById doc "pf-aa-level-select" = none →
      start ops common shaders doc = Except.error JSError.typeError) ∧
    (∀ b c aa opt, getElementById doc "pf-settings-button" = some b →
      getElementById doc "pf-settings-close-button" = some c →
      getElementById doc "pf-aa-level-select" = some aa →
      aa.selectedOptionsHead = some opt → specAAMatch opt.value →
      ∃ r, start ops common shaders doc = Except.ok r) := by
  refine ⟨?_, ?_, ?_, ?_⟩
  · intro hb
    simp [start, hb]
  · intro b hb hc
    simp [start, hb, hc]
  · intro b c hb hc ha
    simp [start, hb, hc, ha]
  · intro b c aa opt hb hc ha hopt hm
    rcases hres : start ops common shaders doc with e | r
    · exfalso
      simp only [start, hb, hc, ha] at hres
      split at hres
      · rename_i e2 heq
        obtain ⟨g1, g2, hexec⟩ : ∃ g1 g2, aaExec opt.value = some (g1, g2) := by
          have hs := aaExec_isSome_of_match hm
          cases hx : aaExec opt.value with
          | none => rw [hx] at hs; simp at hs
          | some rr => exact ⟨rr.1, rr.2, rfl⟩
        simp [updateAALevel, hopt, hexec, unwrapNull] at heq
      · simp at hres
    · exact ⟨r, rfl⟩

/-- Witness for C8 (amended): a missing settings button aborts `start` with a
TypeError, and the full document starts successfully. -/
theorem C8_witness :
    start opsW commonW shadersW docNoButton = Except.error JSError.typeError ∧
    ∃ r, start opsW commonW shadersW docFull = Except.ok r :=
  ⟨(C8_required_elements opsW commonW shadersW docNoButton).1 rfl,
   (C8_required_elements opsW commonW shadersW docFull).2.2.2 btnW closeW aaSelEcaa
     { value := "ecaa-4", label := "ECAA 4x" } rfl rfl rfl (by decide)
     (Or.inr ⟨['e', 'c', 'a', 'a'], ['4'], by decide, by decide, by decide,
       by decide, by decide⟩)⟩

/-- Counterexample to C8 as frozen: with both the canvas and the settings
panel absent from the document, `start` still completes successfully, so
absence of these "required" elements does not make `start` fail. -/
theorem C8_counterexample :
    ∃ r, start opsW commonW shadersW docNoCanvasNoSettings = Except.ok r ∧
      getElementById docNoCanvasNoSettings "pf-canvas" = none ∧
      getElementById docNoCanvasNoSettings "pf-settings" = none := by
  refine ⟨_, rfl, rfl, rfl⟩

/-- C9: the declared `canvas` field is never assigned: `start` binds the
looked-up canvas element only to a local constant and leaves the field
undefined, and the state-writing continuations of `loadFile` and `fetchFile`
preserve it, so every operation leaves the field unchanged. -/
theorem C9_canvas_never_assigned :
    (∀ (Shd View : Type) (ops : SubclassOps Shd View) (common : Promise String)
       (shaders : Promise Shd) (doc : List Elt) (st : ControllerState Shd View)
       (p : Promise (View × String × JSNum)),
       start ops common shaders doc = Except.ok (st, p) → st.canvas = none) ∧
    (∀ (Shd View : Type) (st : ControllerState Shd View) (d : FileBytes),
       (loadFileOnLoadEnd st d).1.canvas = st.canvas) ∧
    (∀ (Shd View : Type) (st : ControllerState Shd View) (d : FileBytes),
       (fetchFileOnResponse st d).1.canvas = st.canvas) := by
  refine ⟨?_, ?_, ?_⟩
  · intro Shd View ops common shaders doc st p h
    exact (start_ok_inv h).2.1
  · intro Shd View st d
    rfl
  · intro Shd View st d
    rfl

/-- Witness for C9: after a successful concrete `start` the canvas field is
still unset. -/
theorem C9_witness :
    ∃ (st : ControllerState Unit Nat) (p : Promise (Nat × String × JSNum)),
      start opsW commonW shadersW docFull = Except.ok (st, p) ∧ st.canvas = none := by
  refine ⟨_, _, rfl, ?_⟩
  exact C9_canvas_never_assigned.1 Unit Nat opsW commonW shadersW docFull _ _ rfl

/-- C10: every parsed antialiasing selection is chained through the view
promise, so the pair reaches `setAntialiasingOptions` only at a time when the
view promise has resolved — the view argument of the forwarded call is the
resolved view.  This holds for any `updateAALevel` invocation and in
particular for the initial one `start` performs, whose result promise `start`
returns. -/
theorem C10_aa_applied_after_view :
    (∀ (Shd View : Type) (st : ControllerState Shd View)
       (p : Promise (View × String × JSNum)), updateAALevel st = Except.ok p →
       ∃ pv, st.view = some pv ∧
         ∀ t v ty lvl, p.run t = some (v, ty, lvl) → pv.run t = some v) ∧
    (∀ (Shd View : Type) (ops : SubclassOps Shd View) (common : Promise String)
       (shaders : Promise Shd) (doc : List Elt) (st : ControllerState Shd View)
       (p : Promise (View × String × JSNum)),
       start ops common shaders doc = Except.ok (st, p) →
       ∃ pv, st.view = some pv ∧
         ∀ t v ty lvl, p.run t = some (v, ty, lvl) → pv.run t = some v) := by
  have part1 : ∀ (Shd View : Type) (st : ControllerState Shd View)
      (p : Promise (View × String × JSNum)), updateAALevel st = Except.ok p →
      ∃ pv, st.view = some pv ∧
        ∀ t v ty lvl, p.run t = some (v, ty, lvl) → pv.run t = some v := by
    intro Shd View st p h
    simp only [updateAALevel] at h
    split at h
    · simp at h
    · split at h
      · simp at h
      · split at h
        · simp at h
        · split at h
          · simp at h
          · rename_i pv hview
            rw [Except.ok.injEq] at h
            refine ⟨pv, hview, ?_⟩
            intro t v ty lvl hr
            rw [← h, Promise.andThen_run] at hr
            cases hp : pv.run t with
            | none => rw [hp] at hr; simp at hr
            | some w =>
                rw [hp] at hr
                simp at hr
                rw [hr.1]
  · refine ⟨part1, ?_⟩
    intro Shd View ops common shaders doc st p h
    exact part1 Shd View st p (start_ok_inv h).2.2.2.2

/-- Witness for C10 at the concrete state `stEcaa`: the forwarded pair only
fires once the view promise has resolved. -/
theorem C10_witness :
    ∃ p, updateAALevel stEcaa = Except.ok p ∧
      ∃ pv, stEcaa.view = some pv ∧
        ∀ t v ty lvl, p.run t = some (v, ty, lvl) → pv.run t = some v := by
  refine ⟨_, rfl, ?_⟩
  exact C10_aa_applied_after_view.1 Unit Nat stEcaa _ rfl
